import Mathlib

/-!
Verification of the ztf_sim meta-scheduler (`Scheduler.py`) and the night
driver loop (`observe.py`).

The scheduler state is embedded shallowly: the Python `dict` of queues becomes
an association list in insertion order, the active queue `self.Q` stores the
queue value itself (as the Python attribute stores the object), and methods
that can raise `ValueError`/`KeyError` return `Except String`.  Collaborator
classes that live outside the two source files (QueueManager validity logic,
the block-index utility, the telescope state machine and the observation
logger) are modelled from the specification, as marked in their doc comments.
-/

/-- One pending request row of a list queue's pending table: `request_id`,
`program_id`, `exposure_time` (seconds) and the optional `n_repeats` column
(`none` models the column being absent, which the code defaults to 1). -/
structure Row where
  request_id : ℕ
  program_id : ℕ
  exposure_time : ℚ
  n_repeats : Option ℚ
deriving DecidableEq

/-- A queue as the Scheduler sees it through the queue-capability contract:
its own `queue_name`, its `queue_type` tag (`"list"`, `"greedy"`, ...), the
optional half-open validity window, the target-of-opportunity flag `is_TOO`,
the pending table `queue`, and the two block lists returned by the
collaborator's `valid_blocks(complete_only=True/False)`. -/
structure Queue where
  queue_name : String
  queue_type : String
  validity_window : Option (ℚ × ℚ)
  is_TOO : Bool
  queue : List Row
  validBlocksComplete : List ℤ
  validBlocksAll : List ℤ
deriving DecidableEq

/-- Scheduler state: the registry `queues` (a dict in insertion order), the
active queue object `Q`, and the `timed_queues_tonight` name list. -/
structure SchedState where
  queues : List (String × Queue)
  Q : Queue
  timed_queues_tonight : List String
deriving DecidableEq

/-- Lookup of a key in an association list, returning the first match, as a
Python dict lookup does (dicts cannot hold duplicate keys). -/
def alookup {α β : Type} [DecidableEq α] : List (α × β) → α → Option β
  | [], _ => none
  | p :: t, k => if p.1 = k then some p.2 else alookup t k

/-- Dict assignment `d[k] = v`: replace the value in place if the key exists,
otherwise append the new pair (insertion order). -/
def assocSet {α β : Type} [DecidableEq α] : List (α × β) → α → β → List (α × β)
  | [], k, v => [(k, v)]
  | p :: t, k, v => if p.1 = k then (k, v) :: t else p :: assocSet t k v

/-- Dict deletion `del d[k]`: remove the first pair with the given key. -/
def eraseKey {α β : Type} [DecidableEq α] : List (α × β) → α → List (α × β)
  | [], _ => []
  | p :: t, k => if p.1 = k then t else p :: eraseKey t k

/-- Registry keys are pairwise distinct, as the keys of a Python dict are. -/
def NodupKeys {α β : Type} (l : List (α × β)) : Prop :=
  (l.map Prod.fst).Nodup

instance {α β : Type} [DecidableEq α] (l : List (α × β)) :
    Decidable (NodupKeys l) := by
  unfold NodupKeys; infer_instance

/-- Translation of `Scheduler.set_queue`: raise if the name is absent,
otherwise point `Q` at the registry's queue object. -/
def set_queue (s : SchedState) (queue_name : String) : Except String SchedState :=
  match alookup s.queues queue_name with
  | none => .error "Requested queue not available!"
  | some q => .ok { s with Q := q }

/-- Translation of `Scheduler.add_queue`: insert or replace the entry when
`clobber` is set or the name is new, otherwise raise. -/
def add_queue (s : SchedState) (queue_name : String) (queue : Queue)
    (clobber : Bool) : Except String SchedState :=
  if clobber || (alookup s.queues queue_name).isNone then
    .ok { s with queues := assocSet s.queues queue_name queue }
  else
    .error "Queue already exists!"

/-- Translation of `Scheduler.delete_queue`: raise if the name is absent;
otherwise, if the active queue carries that name, first switch to
`default`, then delete the entry. -/
def delete_queue (s : SchedState) (queue_name : String) : Except String SchedState :=
  if (alookup s.queues queue_name).isSome then
    match (if s.Q.queue_name = queue_name then set_queue s "default" else .ok s) with
    | .error e => .error e
    | .ok s1 => .ok { s1 with queues := eraseKey s1.queues queue_name }
  else
    .error "Queue does not exist!"

/-- A registry operation issued by a caller of the Scheduler API. -/
inductive Op where
  | setActive : String → Op
  | add : String → Queue → Bool → Op
  | remove : String → Op
deriving DecidableEq

/-- Apply one operation; when the operation raises, the exception propagates
to the caller and the scheduler state is left as it was. -/
def applyOp (s : SchedState) (op : Op) : SchedState :=
  match op with
  | .setActive n => ((set_queue s n).toOption).getD s
  | .add n q c => ((add_queue s n q c).toOption).getD s
  | .remove n => ((delete_queue s n).toOption).getD s

/-- Apply a sequence of registry operations in order. -/
def applyOps (s : SchedState) (ops : List Op) : SchedState :=
  ops.foldl applyOp s

/-- Validity constraints on an operation sequence for the registry invariant:
additions register a queue under its own name (as every queue built by the
configuration collaborator is), and `default` is never the target of a
remove. -/
def opOK (op : Op) : Bool :=
  match op with
  | .setActive _ => true
  | .add n q _ => decide (q.queue_name = n)
  | .remove n => decide (n ≠ "default")

/-- Wellformedness of a scheduler state: `default` is registered, every
registry entry is stored under its own name, and the active queue's name is
registered. -/
def WF (s : SchedState) : Prop :=
  (alookup s.queues "default").isSome = true ∧
  (∀ p ∈ s.queues, p.2.queue_name = p.1) ∧
  (alookup s.queues s.Q.queue_name).isSome = true

instance (s : SchedState) : Decidable (WF s) := by
  unfold WF; infer_instance

/-- Membership of the active queue object among the registry's values. -/
def activeInRegistry (s : SchedState) : Prop :=
  ∃ p ∈ s.queues, p.2 = s.Q

instance (s : SchedState) : Decidable (activeInRegistry s) := by
  unfold activeInRegistry; infer_instance

/-- Modelled from the spec: the nominal single-exposure time in seconds
(`EXPOSURE_TIME` of `constants.py`, not under the sources; §8 fixes the
nominal exposure plus readout at 45 s with readout 15 s). -/
def EXPOSURE_TIME : ℚ := 30

/-- Modelled from the spec: the fixed readout overhead in seconds
(`READOUT_TIME` of `constants.py`, not under the sources; §8 fixes it at
15 s). -/
def READOUT_TIME : ℚ := 15

/-- Modelled from the spec: the finite set of program identifiers
(`PROGRAM_IDS` of `constants.py`, not under the sources). -/
def PROGRAM_IDS : List ℕ := [1, 2, 3]

/-- Modelled from the spec: the Time-Block Index leaf utility (§2), mapping a
continuous timestamp (in days, MJD) onto a fixed-granularity grid of 48
half-hour blocks per day (`block_index` of `utils.py`, not under the
sources). -/
def block_index (t : ℚ) : ℤ :=
  ⌊t * 48⌋

/-- Modelled from the spec: the queue-capability `is_valid(now)` probe (§4.2):
a queue with no validity window is always valid, otherwise validity is
membership in the half-open window `[start, end)` (§3). -/
def Queue.is_valid (q : Queue) (now : ℚ) : Bool :=
  match q.validity_window with
  | none => true
  | some w => decide (w.1 ≤ now ∧ now < w.2)

/-- Names the Scheduler treats as reserved in its per-queue scans. -/
def reservedNames : List String := ["default", "fallback"]

/-- Range filter of `find_excluded_blocks_tonight`: the comprehension
`[b for b in blocks if (block_start <= b <= block_stop)]`. -/
def tonightFilter (block_start block_stop : ℤ) (blocks : List ℤ) : List ℤ :=
  blocks.filter (fun b => decide (block_start ≤ b ∧ b ≤ block_stop))

/-- Loop body of `Scheduler.find_excluded_blocks_tonight` for one registry
entry: skip reserved-named queues and queues without a validity window;
append the complete blocks in range to the excluded list, and append the
registry key to `timed_queues_tonight` when any block is in range. -/
def excludedBlocksStep (block_start block_stop : ℤ)
    (acc : List ℤ × List String) (p : String × Queue) : List ℤ × List String :=
  if p.2.queue_name ∈ reservedNames then acc
  else
    match p.2.validity_window with
    | none => acc
    | some _ =>
      let valid_blocks_tonight :=
        tonightFilter block_start block_stop p.2.validBlocksComplete
      let all_valid_blocks_tonight :=
        tonightFilter block_start block_stop p.2.validBlocksAll
      (acc.1 ++ valid_blocks_tonight,
       if all_valid_blocks_tonight ≠ [] then acc.2 ++ [p.1] else acc.2)

/-- Loop of `Scheduler.find_excluded_blocks_tonight`, folded over the
registry in iteration order. -/
def excludedBlocksAux (block_start block_stop : ℤ)
    (l : List (String × Queue)) : List ℤ × List String :=
  l.foldl (excludedBlocksStep block_start block_stop) ([], [])

/-- Translation of `Scheduler.find_excluded_blocks_tonight`: reset
`timed_queues_tonight`, compute tonight's block bounds from the floor of
`time_now`, and scan the registry; returns the excluded-block list together
with the updated state. -/
def find_excluded_blocks_tonight (s : SchedState) (time_now : ℚ) :
    List ℤ × SchedState :=
  let mjd_today : ℤ := ⌊time_now⌋
  let block_start := block_index (mjd_today : ℚ)
  let block_stop := block_index ((mjd_today : ℚ) + 1)
  let r := excludedBlocksAux block_start block_stop s.queues
  (r.1, { s with timed_queues_tonight := r.2 })

/-- Round half to even on rationals, the rounding `np.round` applies in
`count_timed_observations_tonight`. -/
def roundHalfEven (q : ℚ) : ℤ :=
  let f := ⌊q⌋
  let r := q - (f : ℚ)
  if r < 1/2 then f
  else if 1/2 < r then f + 1
  else if 2 ∣ f then f else f + 1

/-- Total time of one pending row: `(exposure_time + READOUT_TIME) *
n_repeats`, with the `n_repeats` column defaulting to 1 when absent. -/
def rowTotalTime (r : Row) : ℚ :=
  (r.exposure_time + READOUT_TIME) * (r.n_repeats.getD 1)

/-- Per-program total time of a queue's pending table: the grouped sum of
`total_time` over the rows of the given program. -/
def queueNet (q : Queue) (prog : ℕ) : ℚ :=
  ((q.queue.filter (fun r => decide (r.program_id = prog))).map rowTotalTime).sum

/-- Program identifiers appearing in a queue's pending table (the group keys
of the `groupby('program_id')`). -/
def queuePrograms (q : Queue) : List ℕ :=
  (q.queue.map Row.program_id).dedup

/-- Per-queue equivalent-observation counts: for each program appearing in
the queue, the grouped total time divided by the nominal exposure cost and
rounded (`np.round(...).astype(int).to_dict()`). -/
def countQueue (q : Queue) : List (ℕ × ℤ) :=
  (queuePrograms q).map (fun prog =>
    (prog, roundHalfEven (queueNet q prog / (EXPOSURE_TIME + READOUT_TIME))))

/-- Python `timed_obs[k] += v`: bump an existing key of the tally dict, and
raise `KeyError` when the key is absent. -/
def bumpKey {α : Type} [DecidableEq α] :
    List (α × ℤ) → α → ℤ → Except String (List (α × ℤ))
  | [], _, _ => .error "KeyError"
  | p :: t, k, v =>
    if p.1 = k then .ok ((p.1, p.2 + v) :: t)
    else (bumpKey t k v).map (fun t2 => p :: t2)

/-- Loop body of `Scheduler.count_timed_observations_tonight` for one timed
queue name: look the queue up (`self.queues[qq]` raises `KeyError` when
absent) and add its per-program equivalent counts into the tally. -/
def countFoldStep (s : SchedState) (m : List (ℕ × ℤ)) (n : String) :
    Except String (List (ℕ × ℤ)) :=
  match alookup s.queues n with
  | none => .error "KeyError"
  | some qq => (countQueue qq).foldlM (fun m2 kv => bumpKey m2 kv.1 kv.2) m

/-- Translation of `Scheduler.count_timed_observations_tonight`: start from a
zero tally over `PROGRAM_IDS`, return it unchanged when
`timed_queues_tonight` is empty, otherwise accumulate each timed queue's
per-program equivalent counts; the method reads the registry through a
per-queue copy and never assigns to the scheduler, so the state component of
the result is the input state. -/
def count_timed_observations_tonight (s : SchedState) :
    Except String (List (ℕ × ℤ) × SchedState) := do
  let init := PROGRAM_IDS.map (fun p => (p, (0 : ℤ)))
  if s.timed_queues_tonight = [] then
    return (init, s)
  let t ← s.timed_queues_tonight.foldlM (countFoldStep s) init
  return (t, s)

/-- Loop body of `Scheduler.check_for_TOO_queue_and_switch` for one registry
entry: switch to a target-of-opportunity queue that is valid now and
non-empty, provided the active queue is not itself a TOO queue. -/
def tooStep (time_now : ℚ) (st : SchedState) (p : String × Queue) :
    Except String SchedState :=
  if p.2.is_TOO && p.2.is_valid time_now && (!st.Q.is_TOO) && (!p.2.queue.isEmpty) then
    set_queue st p.1
  else .ok st

/-- Translation of `Scheduler.check_for_TOO_queue_and_switch`: scan the
registry in iteration order, applying the switch rule to each entry. -/
def check_for_TOO_queue_and_switch (s : SchedState) (time_now : ℚ) :
    Except String SchedState :=
  s.queues.foldlM (tooStep time_now) s

/-- Marking step of `Scheduler.remove_empty_and_expired_queues` for one
registry entry: skip reserved-named queues; mark a queue whose validity
window has ended before `time_now` (then continue), and otherwise mark a
list queue whose pending table is empty. -/
def markStep (time_now : ℚ) (acc : List String) (p : String × Queue) :
    List String :=
  if p.2.queue_name ∈ reservedNames then acc
  else if (match p.2.validity_window with
           | some w => decide (w.2 < time_now)
           | none => false) then acc ++ [p.1]
  else if p.2.queue_type = "list" ∧ p.2.queue = [] then acc ++ [p.1]
  else acc

/-- Marking loop of `Scheduler.remove_empty_and_expired_queues`, folded over
the registry in iteration order. -/
def queuesForDeletion (l : List (String × Queue)) (time_now : ℚ) : List String :=
  l.foldl (markStep time_now) []

/-- Translation of `Scheduler.remove_empty_and_expired_queues`: mark, remove
duplicate names, and delete each marked queue. -/
def remove_empty_and_expired_queues (s : SchedState) (time_now : ℚ) :
    Except String SchedState :=
  ((queuesForDeletion s.queues time_now).dedup).foldlM delete_queue s

/-- Queue membership condition under which the marking loop records a queue:
not reserved-named, and either the validity window has fully elapsed or the
queue is list-kind with an empty pending table. -/
def removeCond (qq : Queue) (time_now : ℚ) : Bool :=
  (!(qq.queue_name = "default" || qq.queue_name = "fallback")) &&
  ((match qq.validity_window with
    | some w => decide (w.2 < time_now)
    | none => false) ||
   (qq.queue_type = "list" && qq.queue.isEmpty))

/-- Modelled from the spec: the simulated-time advance of one `wait()` call of
the resource state machine ("a time-advancing no-op", §5/§6), in days. -/
def WAIT_DT : ℚ := 1/1440

/-- Modelled from the spec: the resource state-machine collaborator (§6),
reduced to the state the driver loop observes: the simulated clock and the
cannot-observe flag. -/
structure TelState where
  current_time : ℚ
  cant_observe : Bool
deriving DecidableEq

/-- Modelled from the spec: `set_cant_observe()` marks the resource as unable
to observe. -/
def TelState.set_cant_observe (t : TelState) : TelState :=
  { t with cant_observe := true }

/-- Modelled from the spec: `wait()` advances the simulated clock. -/
def TelState.wait (t : TelState) : TelState :=
  { t with current_time := t.current_time + WAIT_DT }

/-- A work item produced by the active queue's selection
(`next_obs`): its request identifier and target coordinates. -/
structure WorkItem where
  request_id : ℕ
  target_ra : ℚ
  target_dec : ℚ
deriving DecidableEq

/-- Modelled from the spec: the history collaborator (§6), holding the
previous-observation record and the appended pointing log. -/
structure ObsLog where
  prev_obs : Option WorkItem
  pointings : List (ℚ × ℕ)
deriving DecidableEq

/-- Modelled from the spec: `log_pointing` appends one completed observation
to the history and records it as the previous observation. -/
def ObsLog.log_pointing (l : ObsLog) (t : ℚ) (w : WorkItem) : ObsLog :=
  { prev_obs := some w, pointings := l.pointings ++ [(t, w.request_id)] }

/-- State carried by the driver loop of `observe.py`: the resource state, the
history collaborator, and the active queue's pending request identifiers
(`Q.rp`). -/
structure DriverState where
  tel : TelState
  log : ObsLog
  pending : List ℕ
deriving DecidableEq

/-- Modelled from the spec: `remove_requests(request_id)` removes the
completed request from the pending collection (idempotent). -/
def removeRequests (pending : List ℕ) (rid : ℕ) : List ℕ :=
  pending.filter (fun r => decide (r ≠ rid))

/-- One iteration of the `observe` driver loop, with the collaborator
outcomes (`check_if_ready`, `start_slew`, `start_exposing`) and the fetched
work item passed as oracles: a slew or exposure failure marks
`set_cant_observe`, clears `prev_obs`, waits and continues; a success logs
the pointing and removes the completed request; a not-ready resource marks
`set_cant_observe` and waits. -/
def observeStep (ready slew_ok expose_ok : Bool) (next_obs : WorkItem)
    (d : DriverState) : DriverState :=
  if ready then
    if !slew_ok then
      { d with tel := (d.tel.set_cant_observe).wait,
               log := { d.log with prev_obs := none } }
    else if !expose_ok then
      { d with tel := (d.tel.set_cant_observe).wait,
               log := { d.log with prev_obs := none } }
    else
      { d with log := d.log.log_pointing d.tel.current_time next_obs,
               pending := removeRequests d.pending next_obs.request_id }
  else
    { d with tel := (d.tel.set_cant_observe).wait }

/-- Tally formula stated from the specification's words (§4.1, §8): for each
queue named in `timed_queues_tonight`, sum `(exposure_time + readout) *
n_repeats` per program, divide by the nominal single-exposure cost, round,
and sum the per-queue counts. -/
def tallySpec (s : SchedState) (prog : ℕ) : ℤ :=
  (s.timed_queues_tonight.map (fun n =>
    match alookup s.queues n with
    | some qq => roundHalfEven (queueNet qq prog / (EXPOSURE_TIME + READOUT_TIME))
    | none => 0)).sum

/-- Eligibility of a registry entry for target-of-opportunity preemption:
flagged as TOO, valid now, and with a non-empty pending table. -/
def eligibleTOO (time_now : ℚ) (p : String × Queue) : Bool :=
  p.2.is_TOO && p.2.is_valid time_now && (!p.2.queue.isEmpty)

/-- A default catch-all queue used by the concrete test states. -/
def defaultQ : Queue :=
  { queue_name := "default", queue_type := "gurobi", validity_window := none,
    is_TOO := false, queue := [], validBlocksComplete := [], validBlocksAll := [] }

/-- A pending row used by the concrete test states. -/
def row7 : Row :=
  { request_id := 7, program_id := 1, exposure_time := 30, n_repeats := none }

/-- A variant of the default queue with a different pending table. -/
def defaultQ2 : Queue :=
  { defaultQ with queue := [row7] }

/-- A non-reserved list queue with an open validity window and an empty
pending table. -/
def emptyOpenQ : Queue :=
  { queue_name := "q1", queue_type := "list", validity_window := some (0, 10),
    is_TOO := false, queue := [], validBlocksComplete := [], validBlocksAll := [] }

/-- A timed queue whose complete valid blocks include tonight's stop block. -/
def edgeBlockQ : Queue :=
  { queue_name := "q1", queue_type := "list", validity_window := some (0, 2),
    is_TOO := false,
    queue := [{ request_id := 1, program_id := 1, exposure_time := 30,
                n_repeats := none }],
    validBlocksComplete := [48], validBlocksAll := [48] }

/-- A valid, non-empty target-of-opportunity queue. -/
def tooQ : Queue :=
  { queue_name := "too1", queue_type := "list", validity_window := some (0, 10),
    is_TOO := true,
    queue := [{ request_id := 2, program_id := 2, exposure_time := 30,
                n_repeats := none }],
    validBlocksComplete := [], validBlocksAll := [] }

/-- A timed list queue holding four 30-second single-repeat requests of
program 1 (the capacity scenario of §8). -/
def timedQ4 : Queue :=
  { queue_name := "msip", queue_type := "list", validity_window := some (0, 1),
    is_TOO := false,
    queue := [{ request_id := 1, program_id := 1, exposure_time := 30, n_repeats := some 1 },
              { request_id := 2, program_id := 1, exposure_time := 30, n_repeats := some 1 },
              { request_id := 3, program_id := 1, exposure_time := 30, n_repeats := some 1 },
              { request_id := 4, program_id := 1, exposure_time := 30, n_repeats := some 1 }],
    validBlocksComplete := [2, 3], validBlocksAll := [2, 3] }

/-- A registry holding only the default queue, with the default queue
active. -/
def sDefault : SchedState :=
  { queues := [("default", defaultQ)], Q := defaultQ, timed_queues_tonight := [] }

/-- A registry with the default queue and an open-window empty list queue. -/
def sEmptyOpen : SchedState :=
  { queues := [("default", defaultQ), ("q1", emptyOpenQ)], Q := defaultQ,
    timed_queues_tonight := [] }

/-- The state `sEmptyOpen` after the empty open-window queue is pruned. -/
def sEmptyOpenAfter : SchedState :=
  { queues := [("default", defaultQ)], Q := defaultQ, timed_queues_tonight := [] }

/-- A registry with the default queue and the edge-block timed queue. -/
def sEdgeBlock : SchedState :=
  { queues := [("default", defaultQ), ("q1", edgeBlockQ)], Q := defaultQ,
    timed_queues_tonight := [] }

/-- A registry with the default queue active and a valid, non-empty
target-of-opportunity queue. -/
def sTOO : SchedState :=
  { queues := [("default", defaultQ), ("too1", tooQ)], Q := defaultQ,
    timed_queues_tonight := [] }

/-- A registry carrying the §8 capacity scenario: one timed queue with four
pending single-repeat 30-second requests, listed in
`timed_queues_tonight`. -/
def sTally : SchedState :=
  { queues := [("default", defaultQ), ("msip", timedQ4)], Q := defaultQ,
    timed_queues_tonight := ["msip"] }

/-- An additional concrete state whose active queue is the non-default
target-of-opportunity queue. -/
def sTOOActive : SchedState :=
  { queues := [("default", defaultQ), ("too1", tooQ)], Q := tooQ,
    timed_queues_tonight := [] }

/-- Excluded-block contribution of one registry entry: empty for
reserved-named or window-less queues, otherwise the complete valid blocks
within tonight's closed block range. -/
def queueExcludeBlocks (block_start block_stop : ℤ) (p : String × Queue) :
    List ℤ :=
  if p.2.queue_name ∈ reservedNames then []
  else
    match p.2.validity_window with
    | none => []
    | some _ => tonightFilter block_start block_stop p.2.validBlocksComplete

/-- Timed-queue-name contribution of one registry entry: the registry key
when the queue has a validity window, is not reserved-named, and any of its
valid blocks falls in tonight's closed block range. -/
def queueTimedNames (block_start block_stop : ℤ) (p : String × Queue) :
    List String :=
  if p.2.queue_name ∈ reservedNames then []
  else
    match p.2.validity_window with
    | none => []
    | some _ =>
      if tonightFilter block_start block_stop p.2.validBlocksAll ≠ [] then [p.1]
      else []

/-- Combined key contribution of a per-queue count list: the sum of the
increments that the accumulation loop adds at a given program key. -/
def sumContrib (kvs : List (ℕ × ℤ)) (j : ℕ) : ℤ :=
  ((kvs.filter (fun kv => decide (kv.1 = j))).map Prod.snd).sum

theorem alookup_mem {α β : Type} [DecidableEq α] {l : List (α × β)} {k : α}
    {v : β} (h : alookup l k = some v) : (k, v) ∈ l := by
  induction l with
  | nil => simp [alookup] at h
  | cons p t ih =>
    rcases p with ⟨a, b⟩
    by_cases hk : a = k
    · simp [alookup, hk] at h
      subst hk; subst h
      exact List.mem_cons_self _ _
    · simp [alookup, hk] at h
      exact List.mem_cons_of_mem _ (ih h)

theorem alookup_eq_none {α β : Type} [DecidableEq α] {l : List (α × β)} {k : α}
    (h : k ∉ l.map Prod.fst) : alookup l k = none := by
  induction l with
  | nil => rfl
  | cons p t ih =>
    simp only [List.map_cons, List.mem_cons] at h
    push_neg at h
    have h1 : ¬ p.1 = k := fun hh => h.1 hh.symm
    simp [alookup, h1, ih h.2]

theorem alookup_isSome_iff {α β : Type} [DecidableEq α] {l : List (α × β)}
    {k : α} : (alookup l k).isSome = true ↔ k ∈ l.map Prod.fst := by
  induction l with
  | nil => simp [alookup]
  | cons p t ih =>
    rw [alookup]
    by_cases hk : p.1 = k
    · simp [hk]
    · rw [if_neg hk, List.map_cons, List.mem_cons, ih]
      constructor
      · exact Or.inr
      · rintro (h | h)
        · exact absurd h.symm hk
        · exact h

theorem alookup_assocSet {α β : Type} [DecidableEq α] (l : List (α × β))
    (k j : α) (v : β) :
    alookup (assocSet l k v) j = if k = j then some v else alookup l j := by
  induction l with
  | nil => simp [assocSet, alookup]
  | cons p t ih =>
    by_cases hp : p.1 = k
    · by_cases hkj : k = j
      · simp [assocSet, alookup, hp, hkj]
      · have hpj : ¬ p.1 = j := by rw [hp]; exact hkj
        simp [assocSet, alookup, hp, hkj, hpj]
    · by_cases hpj : p.1 = j
      · have hkj : ¬ k = j := fun hkj => hp (by rw [hpj, hkj])
        have hjk : ¬ j = k := fun hh => hkj hh.symm
        simp [assocSet, alookup, hp, hpj, hkj, hjk]
      · simp [assocSet, alookup, hp, hpj, ih]

theorem mem_assocSet {α β : Type} [DecidableEq α] {l : List (α × β)}
    {k : α} {v : β} {p : α × β} (h : p ∈ assocSet l k v) :
    p = (k, v) ∨ p ∈ l := by
  induction l with
  | nil => simpa [assocSet] using h
  | cons q t ih =>
    by_cases hq : q.1 = k
    · simp only [assocSet, if_pos hq, List.mem_cons] at h
      rcases h with h | h
      · exact Or.inl h
      · exact Or.inr (List.mem_cons_of_mem _ h)
    · simp only [assocSet, if_neg hq, List.mem_cons] at h
      rcases h with h | h
      · exact Or.inr (h ▸ List.mem_cons_self _ _)
      · rcases ih h with h' | h'
        · exact Or.inl h'
        · exact Or.inr (List.mem_cons_of_mem _ h')

theorem eraseKey_sublist {α β : Type} [DecidableEq α] (l : List (α × β))
    (k : α) : List.Sublist (eraseKey l k) l := by
  induction l with
  | nil => exact List.Sublist.refl []
  | cons p t ih =>
    by_cases hp : p.1 = k
    · rw [eraseKey, if_pos hp]
      exact List.sublist_cons_self p t
    · rw [eraseKey, if_neg hp]
      exact ih.cons₂ p

theorem alookup_eraseKey_ne {α β : Type} [DecidableEq α] {l : List (α × β)}
    {k j : α} (h : k ≠ j) : alookup (eraseKey l j) k = alookup l k := by
  induction l with
  | nil => rfl
  | cons p t ih =>
    by_cases hp : p.1 = j
    · have hpk : ¬ p.1 = k := by rw [hp]; exact fun hh => h hh.symm
      have hjk : ¬ j = k := fun hh => h hh.symm
      simp [eraseKey, alookup, hp, hpk, hjk]
    · by_cases hpk : p.1 = k
      · have hkj : ¬ k = j := h
        simp [eraseKey, alookup, hp, hpk, hkj, h]
      · simp [eraseKey, alookup, hp, hpk, ih]

theorem alookup_eraseKey_self {α β : Type} [DecidableEq α] {l : List (α × β)}
    {k : α} (h : NodupKeys l) : alookup (eraseKey l k) k = none := by
  induction l with
  | nil => rfl
  | cons p t ih =>
    rw [NodupKeys, List.map_cons, List.nodup_cons] at h
    by_cases hp : p.1 = k
    · rw [eraseKey, if_pos hp]
      exact alookup_eq_none (hp ▸ h.1)
    · simp [eraseKey, alookup, hp, ih h.2]

theorem nodupKeys_eraseKey {α β : Type} [DecidableEq α] {l : List (α × β)}
    {k : α} (h : NodupKeys l) : NodupKeys (eraseKey l k) :=
  h.sublist ((eraseKey_sublist l k).map Prod.fst)

theorem mem_alookup_nodup {α β : Type} [DecidableEq α] {l : List (α × β)}
    {p : α × β} (hnd : NodupKeys l) (h : p ∈ l) : alookup l p.1 = some p.2 := by
  induction l with
  | nil => simp at h
  | cons q t ih =>
    rw [NodupKeys, List.map_cons, List.nodup_cons] at hnd
    rcases List.mem_cons.mp h with h | h
    · subst h; simp [alookup]
    · have hne : ¬ q.1 = p.1 := by
        intro he
        exact hnd.1 (he ▸ (List.mem_map_of_mem Prod.fst h))
      simp [alookup, hne, ih hnd.2 h]

theorem set_queue_some {s : SchedState} {n : String} {q : Queue}
    (hl : alookup s.queues n = some q) :
    set_queue s n = .ok { s with Q := q } := by
  simp [set_queue, hl]

theorem set_queue_none {s : SchedState} {n : String}
    (hl : alookup s.queues n = none) :
    set_queue s n = .error "Requested queue not available!" := by
  simp [set_queue, hl]

theorem add_queue_ok {s : SchedState} {n : String} {q : Queue} {c : Bool}
    (hc : (c || (alookup s.queues n).isNone) = true) :
    add_queue s n q c = .ok { s with queues := assocSet s.queues n q } := by
  simp [add_queue, hc]

theorem add_queue_fail {s : SchedState} {n : String} {q : Queue}
    (hl : (alookup s.queues n).isSome = true) :
    add_queue s n q false = .error "Queue already exists!" := by
  obtain ⟨v, hv⟩ := Option.isSome_iff_exists.mp hl
  simp [add_queue, hv]

theorem delete_queue_absent {s : SchedState} {n : String}
    (hl : alookup s.queues n = none) :
    delete_queue s n = .error "Queue does not exist!" := by
  simp [delete_queue, hl]

theorem delete_queue_inactive {s : SchedState} {n : String}
    (hpres : (alookup s.queues n).isSome = true) (hq : s.Q.queue_name ≠ n) :
    delete_queue s n = .ok { s with queues := eraseKey s.queues n } := by
  simp [delete_queue, hpres, hq]

theorem delete_queue_active {s : SchedState} {n : String} {d : Queue}
    (hpres : (alookup s.queues n).isSome = true) (hq : s.Q.queue_name = n)
    (hd : alookup s.queues "default" = some d) :
    delete_queue s n = .ok { s with Q := d, queues := eraseKey s.queues n } := by
  simp [delete_queue, hpres, hq, set_queue, hd]

theorem WF_applyOp (s : SchedState) (op : Op) (hwf : WF s)
    (hop : opOK op = true) : WF (applyOp s op) := by
  obtain ⟨hdef, hcons, hact⟩ := hwf
  cases op with
  | setActive n =>
    cases hl : alookup s.queues n with
    | none =>
      rw [applyOp, set_queue_none hl]
      exact ⟨hdef, hcons, hact⟩
    | some q =>
      have hq : q.queue_name = n := hcons _ (alookup_mem hl)
      rw [applyOp, set_queue_some hl]
      refine ⟨hdef, hcons, ?_⟩
      show (alookup s.queues q.queue_name).isSome = true
      rw [hq, hl]; rfl
  | add n q c =>
    have hqn : q.queue_name = n := of_decide_eq_true hop
    by_cases hcl : (c || (alookup s.queues n).isNone) = true
    · rw [applyOp, add_queue_ok hcl]
      refine ⟨?_, ?_, ?_⟩
      · show (alookup (assocSet s.queues n q) "default").isSome = true
        rw [alookup_assocSet]
        by_cases h : n = "default" <;> simp [h, hdef]
      · intro p hp
        rcases mem_assocSet hp with rfl | hp'
        · exact hqn
        · exact hcons _ hp'
      · show (alookup (assocSet s.queues n q) s.Q.queue_name).isSome = true
        rw [alookup_assocSet]
        by_cases h : n = s.Q.queue_name <;> simp [h, hact]
    · have : add_queue s n q c = .error "Queue already exists!" := by
        simp only [Bool.not_eq_true] at hcl
        simp [add_queue, hcl]
      rw [applyOp, this]
      exact ⟨hdef, hcons, hact⟩
  | remove n =>
    have hn : n ≠ "default" := of_decide_eq_true hop
    have hdne : "default" ≠ n := fun h => hn h.symm
    by_cases hpres : (alookup s.queues n).isSome = true
    · by_cases hq : s.Q.queue_name = n
      · obtain ⟨d, hd⟩ := Option.isSome_iff_exists.mp hdef
        have hdn : d.queue_name = "default" := hcons _ (alookup_mem hd)
        rw [applyOp, delete_queue_active hpres hq hd]
        refine ⟨?_, ?_, ?_⟩
        · show (alookup (eraseKey s.queues n) "default").isSome = true
          rw [alookup_eraseKey_ne hdne]
          exact hdef
        · intro p hp
          exact hcons _ ((eraseKey_sublist s.queues n).subset hp)
        · show (alookup (eraseKey s.queues n) d.queue_name).isSome = true
          rw [hdn, alookup_eraseKey_ne hdne]
          exact hdef
      · rw [applyOp, delete_queue_inactive hpres hq]
        refine ⟨?_, ?_, ?_⟩
        · show (alookup (eraseKey s.queues n) "default").isSome = true
          rw [alookup_eraseKey_ne hdne]
          exact hdef
        · intro p hp
          exact hcons _ ((eraseKey_sublist s.queues n).subset hp)
        · show (alookup (eraseKey s.queues n) s.Q.queue_name).isSome = true
          rw [alookup_eraseKey_ne hq]
          exact hact
    · have hl : alookup s.queues n = none := by
        cases h : alookup s.queues n with
        | none => rfl
        | some q => rw [h] at hpres; exact absurd rfl hpres
      rw [applyOp, delete_queue_absent hl]
      exact ⟨hdef, hcons, hact⟩

/-- C1 (amended): starting from a wellformed registry (that holds `default`,
stores each queue under its own name, and registers the active queue's name),
any sequence of set/add/remove operations whose additions register a queue
under its own name and that never removes `default` preserves this
wellformedness — in particular the single active pointer always names a
registered queue — and deleting the currently active non-default queue
succeeds and leaves the registry's `default` queue active.  The claim's
stronger reading, that the active queue object itself always remains among
the registry's values, fails when an add clobbers the entry under the active
name (see the counterexample). -/
theorem registry_invariant_and_remove_active :
    (∀ (s : SchedState) (ops : List Op), WF s →
      (∀ op ∈ ops, opOK op = true) → WF (applyOps s ops)) ∧
    (∀ (s : SchedState) (n : String), WF s → s.Q.queue_name = n →
      n ≠ "default" →
      ∃ d s', alookup s.queues "default" = some d ∧
        delete_queue s n = .ok s' ∧ s'.Q = d ∧ s'.Q.queue_name = "default") := by
  constructor
  · intro s ops hwf hops
    induction ops generalizing s with
    | nil => exact hwf
    | cons op t ih =>
      rw [applyOps, List.foldl_cons]
      exact ih _ (WF_applyOp s op hwf (hops op (List.mem_cons_self _ _)))
        (fun o ho => hops o (List.mem_cons_of_mem _ ho))
  · intro s n hwf hq hn
    obtain ⟨hdef, hcons, hact⟩ := hwf
    obtain ⟨d, hd⟩ := Option.isSome_iff_exists.mp hdef
    have hdn : d.queue_name = "default" := hcons _ (alookup_mem hd)
    have hpres : (alookup s.queues n).isSome = true := by
      rw [← hq]; exact hact
    exact ⟨d, _, hd, delete_queue_active hpres hq hd, rfl, hdn⟩

/-- Witness for C1: a concrete add/switch/remove run through `applyOps`
preserves wellformedness, and deleting the active non-default queue of
`sTOOActive` makes the default queue active. -/
theorem registry_invariant_witness :
    WF (applyOps sDefault
      [Op.add "too1" tooQ true, Op.setActive "too1", Op.remove "too1"]) ∧
    (∃ d s', alookup sTOOActive.queues "default" = some d ∧
      delete_queue sTOOActive "too1" = .ok s' ∧ s'.Q = d ∧
      s'.Q.queue_name = "default") :=
  ⟨registry_invariant_and_remove_active.1 sDefault
      [Op.add "too1" tooQ true, Op.setActive "too1", Op.remove "too1"]
      (by decide) (by decide),
   registry_invariant_and_remove_active.2 sTOOActive "too1"
      (by decide) (by decide) (by decide)⟩

/-- Counterexample for C1 as stated: in the one-queue registry `sDefault`, a
single valid operation — a clobbering add that replaces the entry under the
active name `default` (with `default` never the target of a remove) — leaves
the active queue object outside the registry's values. -/
theorem active_membership_counterexample :
    ¬ activeInRegistry (applyOps sDefault [Op.add "default" defaultQ2 true]) := by
  decide

/-- C6: failing registry operations are all-or-nothing: switching to an
unregistered name, non-clobbering addition over an existing name, and
removal of an unregistered name each raise and leave the registry mapping
and the active pointer exactly as they were. -/
theorem registry_ops_all_or_nothing (s : SchedState) (nmiss nexist : String)
    (q : Queue) (hmiss : alookup s.queues nmiss = none)
    (hexist : (alookup s.queues nexist).isSome = true) :
    (set_queue s nmiss = .error "Requested queue not available!" ∧
      applyOp s (Op.setActive nmiss) = s) ∧
    (add_queue s nexist q false = .error "Queue already exists!" ∧
      applyOp s (Op.add nexist q false) = s) ∧
    (delete_queue s nmiss = .error "Queue does not exist!" ∧
      applyOp s (Op.remove nmiss) = s) := by
  refine ⟨⟨set_queue_none hmiss, ?_⟩, ⟨add_queue_fail hexist, ?_⟩,
    ⟨delete_queue_absent hmiss, ?_⟩⟩
  · rw [applyOp, set_queue_none hmiss]; rfl
  · rw [applyOp, add_queue_fail hexist]; rfl
  · rw [applyOp, delete_queue_absent hmiss]; rfl

/-- Witness for C6 on the one-queue registry: `missing` is absent and
`default` present. -/
theorem registry_ops_all_or_nothing_witness :
    (set_queue sDefault "missing" = .error "Requested queue not available!" ∧
      applyOp sDefault (Op.setActive "missing") = sDefault) ∧
    (add_queue sDefault "default" defaultQ2 false =
        .error "Queue already exists!" ∧
      applyOp sDefault (Op.add "default" defaultQ2 false) = sDefault) ∧
    (delete_queue sDefault "missing" = .error "Queue does not exist!" ∧
      applyOp sDefault (Op.remove "missing") = sDefault) :=
  registry_ops_all_or_nothing sDefault "missing" "default" defaultQ2
    (by decide) (by decide)

/-- C9: `delete_queue` does not enforce the reserved-name policy: deleting
`default` while it is active succeeds without an error, removes the
`default` entry, and leaves the active pointer referencing the old default
queue, whose name is no longer registered. -/
theorem delete_default_not_enforced (s : SchedState) (d : Queue)
    (hnd : NodupKeys s.queues)
    (hd : alookup s.queues "default" = some d)
    (hQ : s.Q = d) (hname : d.queue_name = "default") :
    ∃ s', delete_queue s "default" = .ok s' ∧ s'.Q = d ∧
      alookup s'.queues "default" = none ∧
      alookup s'.queues s'.Q.queue_name = none := by
  have hpres : (alookup s.queues "default").isSome = true := by
    rw [hd]; rfl
  have hq : s.Q.queue_name = "default" := by rw [hQ, hname]
  refine ⟨_, delete_queue_active hpres hq hd, rfl, ?_, ?_⟩
  · exact alookup_eraseKey_self hnd
  · show alookup (eraseKey s.queues "default") d.queue_name = none
    rw [hname]
    exact alookup_eraseKey_self hnd

/-- Witness for C9: deleting `default` from the one-queue registry while it
is active. -/
theorem delete_default_not_enforced_witness :
    ∃ s', delete_queue sDefault "default" = .ok s' ∧ s'.Q = defaultQ ∧
      alookup s'.queues "default" = none ∧
      alookup s'.queues s'.Q.queue_name = none :=
  delete_default_not_enforced sDefault defaultQ (by decide) (by decide)
    (by decide) (by decide)

/-- C7: in a driver-loop iteration where the resource is ready and the slew
fails (and likewise where the exposure fails), the loop marks the resource
as unable to observe, clears the history's previous-observation record,
advances simulated time by one `wait()` tick, and leaves the pending queue
and the pointing log untouched; `observeStep` is a total function, so the
failure never escapes the loop as an exception. -/
theorem driver_loop_failure_recovery (d : DriverState) (next_obs : WorkItem)
    (e : Bool) :
    ((observeStep true false e next_obs d).pending = d.pending ∧
     (observeStep true false e next_obs d).log.prev_obs = none ∧
     (observeStep true false e next_obs d).log.pointings = d.log.pointings ∧
     (observeStep true false e next_obs d).tel.current_time =
       d.tel.current_time + WAIT_DT ∧
     (observeStep true false e next_obs d).tel.cant_observe = true) ∧
    ((observeStep true true false next_obs d).pending = d.pending ∧
     (observeStep true true false next_obs d).log.prev_obs = none ∧
     (observeStep true true false next_obs d).log.pointings = d.log.pointings ∧
     (observeStep true true false next_obs d).tel.current_time =
       d.tel.current_time + WAIT_DT ∧
     (observeStep true true false next_obs d).tel.cant_observe = true) ∧
    0 < WAIT_DT := by
  refine ⟨⟨rfl, rfl, rfl, rfl, rfl⟩, ⟨rfl, rfl, rfl, rfl, rfl⟩, ?_⟩
  norm_num [WAIT_DT]

/-- C8: for a fixed time and fixed registry contents,
`find_excluded_blocks_tonight` is idempotent: a second call returns the same
excluded-block list and recomputes the same `timed_queues_tonight`, because
the operation resets `timed_queues_tonight` and reads only the registry. -/
theorem find_excluded_blocks_idempotent (s : SchedState) (time_now : ℚ) :
    (find_excluded_blocks_tonight
        (find_excluded_blocks_tonight s time_now).2 time_now).1 =
      (find_excluded_blocks_tonight s time_now).1 ∧
    (find_excluded_blocks_tonight
        (find_excluded_blocks_tonight s time_now).2 time_now).2.timed_queues_tonight =
      (find_excluded_blocks_tonight s time_now).2.timed_queues_tonight :=
  ⟨rfl, rfl⟩

theorem excludedBlocksStep_eq (bs be : ℤ) (acc : List ℤ × List String)
    (p : String × Queue) :
    excludedBlocksStep bs be acc p =
      (acc.1 ++ queueExcludeBlocks bs be p, acc.2 ++ queueTimedNames bs be p) := by
  by_cases hres : p.2.queue_name ∈ reservedNames
  · simp [excludedBlocksStep, queueExcludeBlocks, queueTimedNames, hres]
  · cases hv : p.2.validity_window with
    | none => simp [excludedBlocksStep, queueExcludeBlocks, queueTimedNames, hres, hv]
    | some w =>
      by_cases ha : tonightFilter bs be p.2.validBlocksAll ≠ []
      · simp [excludedBlocksStep, queueExcludeBlocks, queueTimedNames, hres, hv, ha]
      · simp [excludedBlocksStep, queueExcludeBlocks, queueTimedNames, hres, hv, ha]

theorem foldl_excludedBlocksStep (bs be : ℤ) (l : List (String × Queue))
    (acc : List ℤ × List String) :
    l.foldl (excludedBlocksStep bs be) acc =
      (acc.1 ++ (l.map (queueExcludeBlocks bs be)).flatten,
       acc.2 ++ (l.map (queueTimedNames bs be)).flatten) := by
  induction l generalizing acc with
  | nil => simp
  | cons p t ih =>
    rw [List.foldl_cons, ih, excludedBlocksStep_eq]
    simp

theorem excludedBlocksAux_eq (bs be : ℤ) (l : List (String × Queue)) :
    excludedBlocksAux bs be l =
      ((l.map (queueExcludeBlocks bs be)).flatten,
       (l.map (queueTimedNames bs be)).flatten) := by
  rw [excludedBlocksAux, foldl_excludedBlocksStep]
  simp

theorem mem_queueExcludeBlocks {bs be : ℤ} {p : String × Queue} {b : ℤ} :
    b ∈ queueExcludeBlocks bs be p ↔
      p.2.queue_name ∉ reservedNames ∧ p.2.validity_window ≠ none ∧
        b ∈ p.2.validBlocksComplete ∧ bs ≤ b ∧ b ≤ be := by
  by_cases hres : p.2.queue_name ∈ reservedNames
  · simp [queueExcludeBlocks, hres]
  · cases hv : p.2.validity_window with
    | none => simp [queueExcludeBlocks, hres, hv]
    | some w =>
      simp [queueExcludeBlocks, tonightFilter, hres, hv, List.mem_filter,
        and_assoc]

/-- C3 (amended): `find_excluded_blocks_tonight` returns exactly the complete
valid blocks of non-reserved queues with a validity window that lie in
tonight's CLOSED block range `[block(floor(now)), block(floor(now)+1)]`; the
loop's bound `block_start <= b <= block_stop` includes the right endpoint
`block(floor(now)+1)`, which the claim's half-open range would exclude (see
the counterexample). -/
theorem find_excluded_blocks_range (s : SchedState) (time_now : ℚ) (b : ℤ) :
    b ∈ (find_excluded_blocks_tonight s time_now).1 ↔
      ∃ p ∈ s.queues, p.2.queue_name ∉ reservedNames ∧
        p.2.validity_window ≠ none ∧ b ∈ p.2.validBlocksComplete ∧
        block_index ((⌊time_now⌋ : ℤ) : ℚ) ≤ b ∧
        b ≤ block_index (((⌊time_now⌋ : ℤ) : ℚ) + 1) := by
  show b ∈ (excludedBlocksAux _ _ s.queues).1 ↔ _
  rw [excludedBlocksAux_eq]
  simp only [List.mem_flatten, List.mem_map]
  constructor
  · rintro ⟨bl, ⟨p, hp, rfl⟩, hb⟩
    exact ⟨p, hp, mem_queueExcludeBlocks.mp hb⟩
  · rintro ⟨p, hp, h⟩
    exact ⟨queueExcludeBlocks _ _ p, ⟨p, hp, rfl⟩, mem_queueExcludeBlocks.mpr h⟩

/-- Counterexample for C3 as stated: at time 0 with the registry
`sEdgeBlock`, the returned excluded-block set contains the block
`block(floor(now)+1)` itself, which the claimed half-open range would never
include. -/
theorem find_excluded_endpoint_counterexample :
    block_index (((⌊(0 : ℚ)⌋ : ℤ) : ℚ) + 1) ∈
      (find_excluded_blocks_tonight sEdgeBlock 0).1 := by
  have hstart : block_index ((⌊(0 : ℚ)⌋ : ℤ) : ℚ) = 0 := by
    norm_num [block_index]
  have hstop : block_index (((⌊(0 : ℚ)⌋ : ℤ) : ℚ) + 1) = 48 := by
    norm_num [block_index]
  show block_index _ ∈ (excludedBlocksAux (block_index ((⌊(0 : ℚ)⌋ : ℤ) : ℚ))
    (block_index (((⌊(0 : ℚ)⌋ : ℤ) : ℚ) + 1)) sEdgeBlock.queues).1
  rw [hstart, hstop]
  decide

/-- C10: `count_timed_observations_tonight` is read-only: whenever it
returns, the scheduler state it returns alongside the tally — the registry
mapping (hence every queue's pending table), the active pointer and
`timed_queues_tonight` — is the input state, because the method works on a
per-queue copy of the pending table and never assigns to the scheduler. -/
theorem count_timed_readonly (s : SchedState) (t : List (ℕ × ℤ))
    (s' : SchedState)
    (h : count_timed_observations_tonight s = .ok (t, s')) :
    s'.queues = s.queues ∧ s'.Q = s.Q ∧
      s'.timed_queues_tonight = s.timed_queues_tonight ∧
      (∀ n q, alookup s.queues n = some q → alookup s'.queues n = some q) := by
  have hs : s' = s := by
    rw [count_timed_observations_tonight] at h
    by_cases he : s.timed_queues_tonight = []
    · simp only [he, if_pos rfl] at h
      cases h
      rfl
    · simp only [if_neg he] at h
      cases hf : s.timed_queues_tonight.foldlM (countFoldStep s)
          (PROGRAM_IDS.map (fun p => (p, (0 : ℤ)))) with
      | error e => rw [hf] at h; cases h
      | ok t0 => rw [hf] at h; cases h; rfl
  subst hs
  exact ⟨rfl, rfl, rfl, fun n q hq => hq⟩

/-- Witness for C10 at the registry `sDefault` with an empty
`timed_queues_tonight`. -/
theorem count_timed_readonly_witness :
    sDefault.queues = sDefault.queues ∧ sDefault.Q = sDefault.Q ∧
      sDefault.timed_queues_tonight = sDefault.timed_queues_tonight ∧
      (∀ n q, alookup sDefault.queues n = some q →
        alookup sDefault.queues n = some q) :=
  count_timed_readonly sDefault [(1, 0), (2, 0), (3, 0)] sDefault rfl

theorem exceptBind_ok {ε α β : Type} (a : α) (g : α → Except ε β) :
    (Except.ok a : Except ε α) >>= g = g a := rfl

theorem tooFold_frozen (time_now : ℚ) (l : List (String × Queue))
    (st : SchedState) (h : st.Q.is_TOO = true) :
    l.foldlM (tooStep time_now) st = .ok st := by
  induction l with
  | nil => rfl
  | cons p t ih =>
    have hstep : tooStep time_now st p = .ok st := by
      simp [tooStep, h]
    rw [List.foldlM_cons, hstep, exceptBind_ok]
    exact ih

theorem tooFold_main (s : SchedState) (time_now : ℚ)
    (hQ : s.Q.is_TOO = false) (hnd : NodupKeys s.queues) :
    ∀ l : List (String × Queue), (∀ p ∈ l, p ∈ s.queues) →
      (l.find? (eligibleTOO time_now) = none →
        l.foldlM (tooStep time_now) s = .ok s) ∧
      (∀ p, l.find? (eligibleTOO time_now) = some p →
        l.foldlM (tooStep time_now) s = .ok { s with Q := p.2 }) := by
  intro l
  induction l with
  | nil =>
    intro _
    exact ⟨fun _ => rfl, fun p hp => by simp at hp⟩
  | cons p t ih =>
    intro hsub
    have hpmem : p ∈ s.queues := hsub p (List.mem_cons_self _ _)
    have hsub' : ∀ q ∈ t, q ∈ s.queues :=
      fun q hq => hsub q (List.mem_cons_of_mem _ hq)
    by_cases he : eligibleTOO time_now p = true
    · have hfind : (p :: t).find? (eligibleTOO time_now) = some p :=
        List.find?_cons_of_pos t he
      have he' := he
      simp only [eligibleTOO, Bool.and_eq_true] at he'
      obtain ⟨⟨h1, h2⟩, h3⟩ := he'
      have hlk : alookup s.queues p.1 = some p.2 := mem_alookup_nodup hnd hpmem
      have hstep : tooStep time_now s p = .ok { s with Q := p.2 } := by
        simp [tooStep, h1, h2, h3, hQ, set_queue, hlk]
      constructor
      · intro hnone
        rw [hfind] at hnone
        cases hnone
      · intro q hq
        rw [hfind] at hq
        cases hq
        rw [List.foldlM_cons, hstep, exceptBind_ok]
        exact tooFold_frozen time_now t _ h1
    · have hfind : (p :: t).find? (eligibleTOO time_now) =
          t.find? (eligibleTOO time_now) :=
        List.find?_cons_of_neg t (by simpa using he)
      have hstep : tooStep time_now s p = .ok s := by
        have he2 : (p.2.is_TOO && p.2.is_valid time_now &&
            (!p.2.queue.isEmpty)) = false := by
          simpa [eligibleTOO] using he
        have hc : (p.2.is_TOO && p.2.is_valid time_now && (!s.Q.is_TOO) &&
            (!p.2.queue.isEmpty)) = false := by
          rw [hQ]
          revert he2
          cases p.2.is_TOO <;> cases p.2.is_valid time_now <;>
            cases p.2.queue.isEmpty <;> simp
        simp [tooStep, hc]
      rw [List.foldlM_cons, hstep, exceptBind_ok]
      obtain ⟨ihn, ihs⟩ := ih hsub'
      exact ⟨fun hnone => ihn (hfind ▸ hnone), fun q hq => ihs q (hfind ▸ hq)⟩

/-- C5: if the active queue is already an override (TOO) queue, the scan
leaves the whole state unchanged; otherwise, when some registry entry is an
override queue that is valid now and non-empty, the scan switches the active
queue to the first such entry in registry iteration order (and that entry is
indeed an override queue, valid now, and non-empty); when no entry
qualifies, the state is unchanged. -/
theorem TOO_preemption (s : SchedState) (time_now : ℚ)
    (hnd : NodupKeys s.queues) :
    (s.Q.is_TOO = true → check_for_TOO_queue_and_switch s time_now = .ok s) ∧
    (s.Q.is_TOO = false →
      (s.queues.find? (eligibleTOO time_now) = none →
        check_for_TOO_queue_and_switch s time_now = .ok s) ∧
      (∀ p, s.queues.find? (eligibleTOO time_now) = some p →
        check_for_TOO_queue_and_switch s time_now = .ok { s with Q := p.2 } ∧
        p.2.is_TOO = true ∧ p.2.is_valid time_now = true ∧ p.2.queue ≠ [])) := by
  constructor
  · intro h
    exact tooFold_frozen time_now s.queues s h
  · intro hQ
    obtain ⟨hn, hs⟩ := tooFold_main s time_now hQ hnd s.queues (fun p hp => hp)
    refine ⟨hn, fun p hp => ⟨hs p hp, ?_, ?_, ?_⟩⟩
    · have := List.find?_some hp
      simp only [eligibleTOO, Bool.and_eq_true] at this
      exact this.1.1
    · have := List.find?_some hp
      simp only [eligibleTOO, Bool.and_eq_true] at this
      exact this.1.2
    · have := List.find?_some hp
      simp only [eligibleTOO, Bool.and_eq_true, Bool.not_eq_true'] at this
      simpa [List.isEmpty_iff] using this.2

/-- Witness for C5: in `sTOO` the default queue is active and non-override,
and the scan at time 5 switches to the valid, non-empty override queue
`too1`. -/
theorem TOO_preemption_witness :
    check_for_TOO_queue_and_switch sTOO 5 = .ok { sTOO with Q := tooQ } ∧
      tooQ.is_TOO = true ∧ tooQ.is_valid 5 = true ∧ tooQ.queue ≠ [] :=
  ((TOO_preemption sTOO 5 (by decide)).2 (by decide)).2 ("too1", tooQ)
    (by decide)

theorem markStep_eq (time_now : ℚ) (acc : List String) (p : String × Queue) :
    markStep time_now acc p =
      if removeCond p.2 time_now then acc ++ [p.1] else acc := by
  by_cases hres : p.2.queue_name ∈ reservedNames
  · have hcond : removeCond p.2 time_now = false := by
      have hname : p.2.queue_name = "default" ∨ p.2.queue_name = "fallback" := by
        simpa [reservedNames] using hres
      rcases hname with h | h <;> simp [removeCond, h]
    simp [markStep, hres, hcond]
  · have hname : ¬ p.2.queue_name = "default" ∧ ¬ p.2.queue_name = "fallback" := by
      simpa [reservedNames] using hres
    cases hv : p.2.validity_window with
    | none =>
      by_cases hle : p.2.queue_type = "list" ∧ p.2.queue = []
      · have hcond : removeCond p.2 time_now = true := by
          simp [removeCond, hname.1, hname.2, hv, hle.1, hle.2]
        simp [markStep, hres, hv, hle, hcond]
      · have hcond : removeCond p.2 time_now = false := by
          rw [Bool.eq_false_iff]
          intro hcontra
          simp [removeCond, hname.1, hname.2, hv, List.isEmpty_iff] at hcontra
          exact hle hcontra
        simp [markStep, hres, hv, hle, hcond]
    | some w =>
      by_cases hexp : w.2 < time_now
      · have hcond : removeCond p.2 time_now = true := by
          simp [removeCond, hname.1, hname.2, hv, hexp]
        simp [markStep, hres, hv, hexp, hcond]
      · by_cases hle : p.2.queue_type = "list" ∧ p.2.queue = []
        · have hcond : removeCond p.2 time_now = true := by
            simp [removeCond, hname.1, hname.2, hv, hle.1, hle.2]
          simp [markStep, hres, hv, hexp, hle, hcond]
        · have hcond : removeCond p.2 time_now = false := by
            rw [Bool.eq_false_iff]
            intro hcontra
            simp [removeCond, hname.1, hname.2, hv, hexp,
              List.isEmpty_iff] at hcontra
            exact hle hcontra
          simp [markStep, hres, hv, hexp, hle, hcond]

theorem foldl_markStep (time_now : ℚ) (l : List (String × Queue))
    (acc : List String) :
    l.foldl (markStep time_now) acc =
      acc ++ (l.filter (fun p => removeCond p.2 time_now)).map Prod.fst := by
  induction l generalizing acc with
  | nil => simp
  | cons p t ih =>
    rw [List.foldl_cons, markStep_eq, ih]
    by_cases hc : removeCond p.2 time_now = true
    · simp [hc, List.filter_cons]
    · simp [hc, List.filter_cons]

theorem queuesForDeletion_eq (l : List (String × Queue)) (time_now : ℚ) :
    queuesForDeletion l time_now =
      (l.filter (fun p => removeCond p.2 time_now)).map Prod.fst := by
  rw [queuesForDeletion, foldl_markStep]
  rfl

theorem deleteFold (names : List String) :
    ∀ s0 : SchedState, names.Nodup → NodupKeys s0.queues →
      (∀ n ∈ names, (alookup s0.queues n).isSome = true) →
      (alookup s0.queues "default").isSome = true →
      "default" ∉ names →
      ∃ s', names.foldlM delete_queue s0 = .ok s' ∧
        (∀ n, alookup s'.queues n =
          if n ∈ names then none else alookup s0.queues n) := by
  induction names with
  | nil =>
    intro s0 _ _ _ _ _
    exact ⟨s0, rfl, by simp⟩
  | cons m t ih =>
    intro s0 hnodup hndk hpres hdef hdnm
    have hm : (alookup s0.queues m).isSome = true :=
      hpres m (List.mem_cons_self _ _)
    have hmt : m ∉ t := (List.nodup_cons.mp hnodup).1
    have hdm : "default" ≠ m := fun h => hdnm (h ▸ List.mem_cons_self _ _)
    have hstep : ∃ s1, delete_queue s0 m = .ok s1 ∧
        s1.queues = eraseKey s0.queues m := by
      by_cases hq : s0.Q.queue_name = m
      · obtain ⟨d, hd⟩ := Option.isSome_iff_exists.mp hdef
        exact ⟨_, delete_queue_active hm hq hd, rfl⟩
      · exact ⟨_, delete_queue_inactive hm hq, rfl⟩
    obtain ⟨s1, h1, hq1⟩ := hstep
    rw [List.foldlM_cons, h1, exceptBind_ok]
    have hndk1 : NodupKeys s1.queues := hq1 ▸ nodupKeys_eraseKey hndk
    have hpres1 : ∀ n ∈ t, (alookup s1.queues n).isSome = true := by
      intro n hn
      have hnm : n ≠ m := fun h => hmt (h ▸ hn)
      rw [hq1, alookup_eraseKey_ne hnm]
      exact hpres n (List.mem_cons_of_mem _ hn)
    have hdef1 : (alookup s1.queues "default").isSome = true := by
      rw [hq1, alookup_eraseKey_ne hdm]
      exact hdef
    have hdnm1 : "default" ∉ t := fun h => hdnm (List.mem_cons_of_mem _ h)
    obtain ⟨s', hfold, hchar⟩ :=
      ih s1 (List.nodup_cons.mp hnodup).2 hndk1 hpres1 hdef1 hdnm1
    refine ⟨s', hfold, ?_⟩
    intro n
    by_cases hn : n = m
    · subst hn
      rw [hchar n, if_neg hmt, hq1, alookup_eraseKey_self hndk,
        if_pos (List.mem_cons_self _ _)]
    · rw [hchar n]
      by_cases hnt : n ∈ t
      · rw [if_pos hnt, if_pos (List.mem_cons_of_mem _ hnt)]
      · rw [if_neg hnt, if_neg (by simp [hn, hnt]), hq1,
          alookup_eraseKey_ne hn]

/-- C2 (amended): `remove_empty_and_expired_queues` removes a queue if and
only if it is not named `default` or `fallback` and either its validity
window has fully elapsed at the given time or it is list-kind with an empty
pending table — whether or not a validity window is open at that time.  It
never removes `default` or `fallback`, and all other entries are untouched.
The claim's exemption of an open-window empty list queue fails (see the
counterexample): the emptiness check is not restricted to window-less
queues. -/
theorem prune_removes_exactly (s : SchedState) (time_now : ℚ)
    (hnd : NodupKeys s.queues)
    (hcons : ∀ p ∈ s.queues, p.2.queue_name = p.1)
    (hdef : (alookup s.queues "default").isSome = true) :
    ∃ s', remove_empty_and_expired_queues s time_now = .ok s' ∧
      (∀ n q, alookup s.queues n = some q →
        alookup s'.queues n =
          if removeCond q time_now then none else some q) ∧
      (∀ n, alookup s.queues n = none → alookup s'.queues n = none) ∧
      (∀ q, alookup s.queues "default" = some q →
        alookup s'.queues "default" = some q) ∧
      (∀ q, alookup s.queues "fallback" = some q →
        alookup s'.queues "fallback" = some q) := by
  have hmarked_pre :
      queuesForDeletion s.queues time_now =
        (s.queues.filter (fun p => removeCond p.2 time_now)).map Prod.fst :=
    queuesForDeletion_eq _ _
  have hnodup_pre : (queuesForDeletion s.queues time_now).Nodup := by
    rw [hmarked_pre]
    exact hnd.sublist ((List.filter_sublist s.queues).map Prod.fst)
  have hdedup : (queuesForDeletion s.queues time_now).dedup =
      queuesForDeletion s.queues time_now :=
    List.dedup_eq_self.mpr hnodup_pre
  have hmemiff : ∀ n q, alookup s.queues n = some q →
      (n ∈ queuesForDeletion s.queues time_now ↔
        removeCond q time_now = true) := by
    intro n q hlk
    rw [hmarked_pre]
    constructor
    · intro hn
      obtain ⟨p, hpf, hp1⟩ := List.mem_map.mp hn
      obtain ⟨hpl, hpc⟩ := List.mem_filter.mp hpf
      have hval := mem_alookup_nodup hnd hpl
      rw [hp1, hlk] at hval
      cases hval
      exact hpc
    · intro hc
      exact List.mem_map.mpr
        ⟨(n, q), List.mem_filter.mpr ⟨alookup_mem hlk, hc⟩, rfl⟩
  have hpres : ∀ n ∈ queuesForDeletion s.queues time_now,
      (alookup s.queues n).isSome = true := by
    intro n hn
    rw [hmarked_pre] at hn
    obtain ⟨p, hpf, hp1⟩ := List.mem_map.mp hn
    obtain ⟨hpl, _⟩ := List.mem_filter.mp hpf
    have hval := mem_alookup_nodup hnd hpl
    rw [hp1] at hval
    rw [hval]
    rfl
  have hdnm : "default" ∉ queuesForDeletion s.queues time_now := by
    intro hn
    rw [hmarked_pre] at hn
    obtain ⟨p, hpf, hp1⟩ := List.mem_map.mp hn
    obtain ⟨hpl, hpc⟩ := List.mem_filter.mp hpf
    have hname : p.2.queue_name = "default" := by rw [hcons p hpl, hp1]
    simp [removeCond, hname] at hpc
  obtain ⟨s', hfold, hchar⟩ :=
    deleteFold (queuesForDeletion s.queues time_now) s hnodup_pre hnd
      hpres hdef hdnm
  have hre : remove_empty_and_expired_queues s time_now =
      (queuesForDeletion s.queues time_now).foldlM delete_queue s := by
    rw [remove_empty_and_expired_queues, hdedup]
  refine ⟨s', by rw [hre]; exact hfold, ?_, ?_, ?_, ?_⟩
  · intro n q hlk
    by_cases hm : n ∈ queuesForDeletion s.queues time_now
    · rw [hchar n, if_pos hm, if_pos ((hmemiff n q hlk).mp hm)]
    · have hcond : removeCond q time_now = false := by
        rw [Bool.eq_false_iff]
        intro hc
        exact hm ((hmemiff n q hlk).mpr hc)
      rw [hchar n, if_neg hm, hlk, hcond]
      simp
  · intro n hnone
    have hm : n ∉ queuesForDeletion s.queues time_now := by
      intro hn
      have hcontra := hpres n hn
      rw [hnone] at hcontra
      simp at hcontra
    rw [hchar n, if_neg hm]
    exact hnone
  · intro q hq
    rw [hchar _, if_neg hdnm]
    exact hq
  · intro q hq
    have hname : q.queue_name = "fallback" := hcons _ (alookup_mem hq)
    have hm : "fallback" ∉ queuesForDeletion s.queues time_now := by
      intro hn
      have hcontra := (hmemiff _ q hq).mp hn
      simp [removeCond, hname] at hcontra
    rw [hchar _, if_neg hm]
    exact hq

/-- Witness for C2 at `sEmptyOpen`: pruning at time 5 removes the empty list
queue and keeps `default`, matching the characterization. -/
theorem prune_removes_exactly_witness :
    ∃ s', remove_empty_and_expired_queues sEmptyOpen 5 = .ok s' ∧
      (∀ n q, alookup sEmptyOpen.queues n = some q →
        alookup s'.queues n =
          if removeCond q 5 then none else some q) ∧
      (∀ n, alookup sEmptyOpen.queues n = none → alookup s'.queues n = none) ∧
      (∀ q, alookup sEmptyOpen.queues "default" = some q →
        alookup s'.queues "default" = some q) ∧
      (∀ q, alookup sEmptyOpen.queues "fallback" = some q →
        alookup s'.queues "fallback" = some q) :=
  prune_removes_exactly sEmptyOpen 5 (by decide) (by decide) (by decide)

/-- Counterexample for C2 as stated: at time 5 the list queue `q1` of
`sEmptyOpen` has an open validity window `[0, 10)` and an empty pending
table, and the prune pass deletes it anyway. -/
theorem prune_open_window_counterexample :
    remove_empty_and_expired_queues sEmptyOpen 5 = .ok sEmptyOpenAfter ∧
      emptyOpenQ.queue_type = "list" ∧ emptyOpenQ.queue = [] ∧
      emptyOpenQ.validity_window = some (0, 10) ∧
      ((0 : ℚ) ≤ 5 ∧ (5 : ℚ) < 10) ∧
      alookup sEmptyOpenAfter.queues "q1" = none :=
  ⟨rfl, rfl, rfl, rfl, by decide, rfl⟩

theorem bumpKey_ok {α : Type} [DecidableEq α] :
    ∀ (m : List (α × ℤ)) (k : α) (v : ℤ), (alookup m k).isSome = true →
      ∃ m', bumpKey m k v = .ok m' ∧
        ∀ j, alookup m' j =
          if j = k then (alookup m k).map (· + v) else alookup m j := by
  intro m
  induction m with
  | nil => intro k v h; simp [alookup] at h
  | cons p t ih =>
    intro k v h
    by_cases hp : p.1 = k
    · refine ⟨(p.1, p.2 + v) :: t, by simp [bumpKey, hp], ?_⟩
      intro j
      by_cases hj : j = k
      · subst hj
        simp [alookup, hp]
      · have hpj : ¬ p.1 = j := by rw [hp]; exact fun hh => hj hh.symm
        simp [alookup, hpj, hj]
    · rw [alookup, if_neg hp] at h
      obtain ⟨t', ht', char⟩ := ih k v h
      refine ⟨p :: t', ?_, ?_⟩
      · rw [bumpKey, if_neg hp, ht']
        rfl
      · intro j
        by_cases hpj : p.1 = j
        · have hj : ¬ j = k := fun hh => hp (hpj.trans hh)
          simp [alookup, hpj, hj]
        · simp [alookup, hpj, hp, char j]

theorem foldBumps : ∀ (kvs : List (ℕ × ℤ)) (m : List (ℕ × ℤ)),
    (∀ kv ∈ kvs, (alookup m kv.1).isSome = true) →
    ∃ m', kvs.foldlM (fun m2 kv => bumpKey m2 kv.1 kv.2) m = .ok m' ∧
      ∀ j, alookup m' j = (alookup m j).map (· + sumContrib kvs j) := by
  intro kvs
  induction kvs with
  | nil =>
    intro m _
    refine ⟨m, rfl, ?_⟩
    intro j
    cases alookup m j <;> simp [sumContrib]
  | cons kv t ih =>
    intro m h
    obtain ⟨m1, hb, char1⟩ :=
      bumpKey_ok m kv.1 kv.2 (h kv (List.mem_cons_self _ _))
    have ht : ∀ kv' ∈ t, (alookup m1 kv'.1).isSome = true := by
      intro kv' hkv'
      rw [char1 kv'.1]
      by_cases hk : kv'.1 = kv.1
      · rw [if_pos hk]
        have hm := h kv (List.mem_cons_self _ _)
        cases hx : alookup m kv.1 with
        | none => rw [hx] at hm; simp at hm
        | some a => simp
      · rw [if_neg hk]
        exact h kv' (List.mem_cons_of_mem _ hkv')
    obtain ⟨m', hf, char2⟩ := ih m1 ht
    refine ⟨m', ?_, ?_⟩
    · rw [List.foldlM_cons, hb, exceptBind_ok]
      exact hf
    · intro j
      rw [char2 j, char1 j]
      by_cases hj : j = kv.1
      · subst hj
        rw [if_pos rfl]
        have hsum : sumContrib (kv :: t) kv.1 = kv.2 + sumContrib t kv.1 := by
          simp [sumContrib, List.filter_cons]
        rw [hsum]
        cases alookup m kv.1 <;> simp [add_assoc]
      · rw [if_neg hj]
        have hsum : sumContrib (kv :: t) j = sumContrib t j := by
          have hk : ¬ kv.1 = j := fun hh => hj hh.symm
          simp [sumContrib, List.filter_cons, hk]
        rw [hsum]

theorem sumContrib_mapPair (j : ℕ) (f : ℕ → ℤ) :
    ∀ ps : List ℕ, ps.Nodup →
      sumContrib (ps.map (fun p => (p, f p))) j =
        if j ∈ ps then f j else 0 := by
  intro ps
  induction ps with
  | nil => intro _; simp [sumContrib]
  | cons p t ih =>
    intro hnodup
    obtain ⟨hpt, hnt⟩ := List.nodup_cons.mp hnodup
    by_cases hp : p = j
    · subst hp
      have ht0 : sumContrib (t.map (fun p => (p, f p))) p = 0 := by
        rw [ih hnt, if_neg hpt]
      have : sumContrib ((p :: t).map (fun p => (p, f p))) p =
          f p + sumContrib (t.map (fun p => (p, f p))) p := by
        simp [sumContrib, List.filter_cons]
      rw [this, ht0]
      simp
    · have : sumContrib ((p :: t).map (fun p => (p, f p))) j =
          sumContrib (t.map (fun p => (p, f p))) j := by
        simp [sumContrib, List.filter_cons, hp]
      rw [this, ih hnt]
      have hmem : (j ∈ p :: t) ↔ (j ∈ t) := by
        constructor
        · intro hh
          rcases List.mem_cons.mp hh with h1 | h1
          · exact absurd h1.symm hp
          · exact h1
        · exact fun hh => List.mem_cons_of_mem _ hh
      by_cases hj : j ∈ t
      · rw [if_pos hj, if_pos (hmem.mpr hj)]
      · rw [if_neg hj, if_neg (fun hh => hj (hmem.mp hh))]

theorem queueNet_of_not_mem {q : Queue} {j : ℕ}
    (h : j ∉ queuePrograms q) : queueNet q j = 0 := by
  have hmap : j ∉ q.queue.map Row.program_id := by
    intro hc
    exact h (by simpa [queuePrograms, List.mem_dedup] using hc)
  have hfil : q.queue.filter (fun r => decide (r.program_id = j)) = [] := by
    rw [List.filter_eq_nil_iff]
    intro r hr hc
    exact hmap (List.mem_map.mpr ⟨r, hr, by simpa using hc⟩)
  rw [queueNet, hfil]
  simp

theorem roundHalfEven_zero : roundHalfEven 0 = 0 := by
  norm_num [roundHalfEven]

theorem sumContrib_countQueue (q : Queue) (j : ℕ) :
    sumContrib (countQueue q) j =
      roundHalfEven (queueNet q j / (EXPOSURE_TIME + READOUT_TIME)) := by
  rw [countQueue, sumContrib_mapPair j _ (queuePrograms q) (List.nodup_dedup _)]
  by_cases hj : j ∈ queuePrograms q
  · rw [if_pos hj]
  · rw [if_neg hj, queueNet_of_not_mem hj]
    rw [zero_div, roundHalfEven_zero]

theorem alookup_zeros (j : ℕ) :
    ∀ ps : List ℕ, alookup (ps.map (fun p => (p, (0 : ℤ)))) j =
      if j ∈ ps then some 0 else none := by
  intro ps
  induction ps with
  | nil => simp [alookup]
  | cons p t ih =>
    by_cases hp : p = j
    · subst hp
      simp [alookup]
    · have : ¬ (j = p) := fun hh => hp hh.symm
      simp [alookup, hp, ih, this]

theorem countFold_main (s : SchedState) :
    ∀ (names : List String) (m : List (ℕ × ℤ)),
      (∀ n ∈ names, (alookup s.queues n).isSome = true) →
      (∀ n qq, n ∈ names → alookup s.queues n = some qq →
        ∀ r ∈ qq.queue, r.program_id ∈ PROGRAM_IDS) →
      (∀ j ∈ PROGRAM_IDS, (alookup m j).isSome = true) →
      ∃ m', names.foldlM (countFoldStep s) m = .ok m' ∧
        ∀ j, alookup m' j = (alookup m j).map
          (· + (names.map (fun n =>
            match alookup s.queues n with
            | some qq =>
              roundHalfEven (queueNet qq j / (EXPOSURE_TIME + READOUT_TIME))
            | none => 0)).sum) := by
  intro names
  induction names with
  | nil =>
    intro m _ _ _
    refine ⟨m, rfl, fun j => ?_⟩
    cases alookup m j <;> simp
  | cons n t ih =>
    intro m hnames hprogs hm
    obtain ⟨qq, hqq⟩ :=
      Option.isSome_iff_exists.mp (hnames n (List.mem_cons_self _ _))
    have hkeys : ∀ kv ∈ countQueue qq, (alookup m kv.1).isSome = true := by
      intro kv hkv
      have h1 : kv.1 ∈ queuePrograms qq := by
        rw [countQueue] at hkv
        obtain ⟨p, hp, hkv'⟩ := List.mem_map.mp hkv
        cases hkv'
        exact hp
      have h2 : kv.1 ∈ PROGRAM_IDS := by
        rw [queuePrograms, List.mem_dedup] at h1
        obtain ⟨r, hr, hrid⟩ := List.mem_map.mp h1
        exact hrid ▸ hprogs n qq (List.mem_cons_self _ _) hqq r hr
      exact hm _ h2
    have hstep : countFoldStep s m n =
        (countQueue qq).foldlM (fun m2 kv => bumpKey m2 kv.1 kv.2) m := by
      rw [countFoldStep, hqq]
    obtain ⟨m1, hbumps, char1⟩ := foldBumps (countQueue qq) m hkeys
    have hm1 : ∀ j ∈ PROGRAM_IDS, (alookup m1 j).isSome = true := by
      intro j hj
      rw [char1 j]
      cases hx : alookup m j with
      | none => have hc := hm j hj; rw [hx] at hc; simp at hc
      | some a => simp
    have ht1 : ∀ n' ∈ t, (alookup s.queues n').isSome = true :=
      fun n' h' => hnames n' (List.mem_cons_of_mem _ h')
    have ht2 : ∀ n' qq', n' ∈ t → alookup s.queues n' = some qq' →
        ∀ r ∈ qq'.queue, r.program_id ∈ PROGRAM_IDS :=
      fun n' qq' h' => hprogs n' qq' (List.mem_cons_of_mem _ h')
    obtain ⟨m', hfold, char2⟩ := ih m1 ht1 ht2 hm1
    refine ⟨m', ?_, fun j => ?_⟩
    · rw [List.foldlM_cons, hstep, hbumps, exceptBind_ok]
      exact hfold
    · rw [char2 j, char1 j]
      cases alookup m j <;>
        simp [hqq, sumContrib_countQueue, add_assoc]

/-- C4: the per-program capacity tally equals, for every program identifier,
the sum over the queues named in `timed_queues_tonight` of the rounded
quotient of the queue's per-program total time (with `n_repeats` defaulting
to 1) by the nominal single-exposure cost; programs appearing in no timed
queue tally 0, and with an empty `timed_queues_tonight` every program
tallies exactly 0. -/
theorem tally_committed_capacity_correct (s : SchedState)
    (hnames : ∀ n ∈ s.timed_queues_tonight,
      (alookup s.queues n).isSome = true)
    (hprogs : ∀ n qq, n ∈ s.timed_queues_tonight →
      alookup s.queues n = some qq →
      ∀ r ∈ qq.queue, r.program_id ∈ PROGRAM_IDS) :
    ∃ m, count_timed_observations_tonight s = .ok (m, s) ∧
      (∀ prog ∈ PROGRAM_IDS, alookup m prog = some (tallySpec s prog)) ∧
      (s.timed_queues_tonight = [] →
        ∀ prog ∈ PROGRAM_IDS, alookup m prog = some 0) ∧
      (∀ prog ∈ PROGRAM_IDS,
        (∀ n qq, n ∈ s.timed_queues_tonight →
          alookup s.queues n = some qq →
          ∀ r ∈ qq.queue, r.program_id ≠ prog) →
        alookup m prog = some 0) := by
  by_cases he : s.timed_queues_tonight = []
  · refine ⟨PROGRAM_IDS.map (fun p => (p, (0 : ℤ))), ?_, ?_, ?_, ?_⟩
    · rw [count_timed_observations_tonight]
      simp [he]
      rfl
    · intro prog hp
      rw [alookup_zeros, if_pos hp]
      simp [tallySpec, he]
    · intro _ prog hp
      rw [alookup_zeros, if_pos hp]
    · intro prog hp _
      rw [alookup_zeros, if_pos hp]
  · have hm0 : ∀ j ∈ PROGRAM_IDS,
        (alookup (PROGRAM_IDS.map (fun p => (p, (0 : ℤ)))) j).isSome = true := by
      intro j hj
      rw [alookup_zeros, if_pos hj]
      rfl
    obtain ⟨m, hfold, char⟩ :=
      countFold_main s s.timed_queues_tonight _ hnames hprogs hm0
    have hcount : count_timed_observations_tonight s = .ok (m, s) := by
      rw [count_timed_observations_tonight]
      simp only [he, if_neg, ite_false]
      rw [hfold]
      rfl
    refine ⟨m, hcount, ?_, fun h => absurd h he, ?_⟩
    · intro prog hp
      rw [char prog, alookup_zeros, if_pos hp]
      simp [tallySpec]
    · intro prog hp hzero
      have hsum0 : (s.timed_queues_tonight.map (fun n =>
          match alookup s.queues n with
          | some qq =>
            roundHalfEven (queueNet qq prog / (EXPOSURE_TIME + READOUT_TIME))
          | none => 0)).sum = 0 := by
        apply List.sum_eq_zero
        intro x hx
        obtain ⟨n, hn, hxe⟩ := List.mem_map.mp hx
        cases hq : alookup s.queues n with
        | none =>
          rw [hq] at hxe
          exact hxe.symm
        | some qq =>
          rw [hq] at hxe
          have hxe2 : roundHalfEven (queueNet qq prog /
              (EXPOSURE_TIME + READOUT_TIME)) = x := hxe
          have hnet : queueNet qq prog = 0 := by
            apply queueNet_of_not_mem
            rw [queuePrograms, List.mem_dedup]
            intro hc
            obtain ⟨r, hr, hrid⟩ := List.mem_map.mp hc
            exact hzero n qq hn hq r hr hrid
          rw [hnet, zero_div, roundHalfEven_zero] at hxe2
          exact hxe2.symm
      rw [char prog, alookup_zeros, if_pos hp, hsum0]
      simp

/-- Witness for C4: the capacity scenario of one timed queue holding four
30-second single-repeat requests of program 1 tallies exactly 4 equivalent
observations for that program. -/
theorem tally_committed_capacity_witness :
    ∃ m, count_timed_observations_tonight sTally = .ok (m, sTally) ∧
      alookup m 1 = some 4 := by
  obtain ⟨m, hok, h1, h2, h3⟩ :=
    tally_committed_capacity_correct sTally
      (by decide)
      (by
        intro n qq hn hq
        have hn' : n = "msip" := by
          simpa [sTally] using hn
        subst hn'
        have hlk : alookup sTally.queues "msip" = some timedQ4 := by decide
        rw [hlk] at hq
        cases hq
        decide)
  refine ⟨m, hok, ?_⟩
  rw [h1 1 (by decide)]
  have ht : tallySpec sTally 1 = 4 := by
    have hlk : alookup [("default", defaultQ), ("msip", timedQ4)] "msip" =
        some timedQ4 := by decide
    have hnet : queueNet timedQ4 1 = 180 := by
      norm_num [queueNet, timedQ4, rowTotalTime, READOUT_TIME]
    have hround : roundHalfEven ((180 : ℚ) / (EXPOSURE_TIME + READOUT_TIME)) = 4 := by
      norm_num [roundHalfEven, EXPOSURE_TIME, READOUT_TIME]
    simp [tallySpec, sTally, hlk, hnet, hround]
  rw [ht]

